import Mathlib

/-!
Verification of the Video_to_Transcripts service.

Strings are modelled as their character lists (`List Char`); times, float
timestamps and caption timings are modelled as rationals (the code uses the
same `+`, `-`, `<`, `max` on them, so every claim below is insensitive to the
numeric representation).  File contents are below the granularity of the
claims, so the disk is modelled as the list of paths present in the output
directory.  External effects (the captions API, the filesystem write calls,
`os.remove`) are modelled by explicit outcome parameters.
-/

/-! ### Python string primitives -/

/-- Python's notion of whitespace used by `str.strip()` / `str.split()`:
space, tab, newline, carriage return, vertical tab, form feed. -/
def pySpace (c : Char) : Bool :=
  c = ' ' || c = '\t' || c = '\n' || c = '\r' || c = Char.ofNat 11 || c = Char.ofNat 12

/-- Python `str.lower()` (the inputs in this code are ASCII). -/
def lowerL (s : List Char) : List Char := s.map Char.toLower

/-- Python `str.lstrip()`. -/
def lstrip (s : List Char) : List Char := s.dropWhile pySpace

/-- Python `str.rstrip()`. -/
def rstrip (s : List Char) : List Char := (s.reverse.dropWhile pySpace).reverse

/-- Python `str.strip()`: leading and trailing whitespace removed. -/
def pyStrip (s : List Char) : List Char := lstrip (rstrip s)

/-- Worker for `str.split()` with no argument: maximal runs of
non-whitespace characters, with `acc` the (reversed) run being read. -/
def wsSplitAux : List Char → List Char → List (List Char)
  | [], acc => if acc = [] then [] else [acc.reverse]
  | c :: rest, acc =>
    if pySpace c then
      if acc = [] then wsSplitAux rest [] else acc.reverse :: wsSplitAux rest []
    else
      wsSplitAux rest (c :: acc)

/-- Python `s.split()` (whitespace split, empty tokens dropped). -/
def pyWsSplit (s : List Char) : List (List Char) := wsSplitAux s []

/-- Whether `sep` is a prefix of the second list (character-by-character). -/
def isPre : List Char → List Char → Bool
  | [], _ => true
  | _ :: _, [] => false
  | a :: as, b :: bs => if a = b then isPre as bs else false

/-- Python `sep in s` for strings: contiguous-substring containment. -/
def containsSub (sep : List Char) : List Char → Bool
  | [] => isPre sep []
  | c :: rest => isPre sep (c :: rest) || containsSub sep rest

/-- The characters after the first occurrence of `sep` in `s`
(`none` when `sep` does not occur; `sep` is nonempty at every use site). -/
def afterFirst (sep : List Char) : List Char → Option (List Char)
  | [] => none
  | c :: rest =>
    if isPre sep (c :: rest) then some (List.drop sep.length (c :: rest))
    else afterFirst sep rest

/-- The characters before the first occurrence of `sep` in `s`
(all of `s` when `sep` does not occur). -/
def beforeFirst (sep : List Char) : List Char → List Char
  | [] => []
  | c :: rest =>
    if isPre sep (c :: rest) then []
    else c :: beforeFirst sep rest

/-- Python `s.split(sep)` for nonempty `sep`: the chunk before the first
occurrence of `sep`, then, recursively, the chunks of the remainder after
that occurrence.  The fuel only bounds the recursion; `pySplit` passes
`s.length + 1`, which is never exhausted when `sep` is nonempty. -/
def pySplitF (sep : List Char) : Nat → List Char → List (List Char)
  | 0, s => [s]
  | Nat.succ f, s =>
    match afterFirst sep s with
    | none => [s]
    | some r => beforeFirst sep s :: pySplitF sep f r

/-- Python `s.split(sep)` (for the nonempty separators used by this code). -/
def pySplit (sep s : List Char) : List (List Char) := pySplitF sep (s.length + 1) s

/-- Python list indexing on a split result, as used under guards that make
the index in range (`split(...)[0]`, `split(...)[1]`). -/
def pyIdx (l : List (List Char)) (i : Nat) : List Char := l.getD i []

/-- Python `sep.join(parts)`. -/
def pyJoin (sep : List Char) : List (List Char) → List Char
  | [] => []
  | [x] => x
  | x :: y :: rest => x ++ sep ++ pyJoin sep (y :: rest)

/-! ### `app/core/security.py` -/

/-- Characters replaced by `security.sanitize_filename`: the characters of `'<>:"/\\|?*'` replaced by
`'_'`, the result truncated to 100 characters, then stripped. -/
def dangerousChars : List Char := "<>:\"/\\|?*".toList

/-- Model of `security.sanitize_filename`. -/
def sanitizeFilename (filename : List Char) : List Char :=
  pyStrip ((dangerousChars.foldl
    (fun f c => f.map (fun x => if x = c then '_' else x)) filename).take 100)

/-- The `youtube_domains` list of `security.validate_youtube_url`. -/
def youtubeDomains : List (List Char) :=
  ["youtube.com".toList, "www.youtube.com".toList, "youtu.be".toList, "m.youtube.com".toList]

/-- Model of `security.validate_youtube_url`: some recognized domain string occurs
(case-insensitively) anywhere in the URL. -/
def validateYoutubeUrl (url : List Char) : Bool :=
  youtubeDomains.any (fun d => containsSub d (lowerL url))

def shortMarker : List Char := "youtu.be/".toList
def watchMarker : List Char := "watch?v=".toList
def vMarker : List Char := "v=".toList
def embedMarker : List Char := "embed/".toList

/-- The three `HTTPException(400, ...)` raises of `security.extract_video_id`;
the specification's error taxonomy files all three under `InvalidURL`. -/
inductive ExtractErr where
  | invalidUrl
  | unableToExtract
  | invalidVideoId
deriving DecidableEq

/-- The branch of `security.extract_video_id` that computes the `video_id`
candidate before the length check:
`url.split("youtu.be/")[1].split("?")[0].split("&")[0]` /
`url.split("v=")[1].split("&")[0]` / `url.split("embed/")[1].split("?")[0]`,
guarded by the containment checks, in source order. -/
def candidateVideoId (url : List Char) : Option (List Char) :=
  if containsSub shortMarker url then
    some (pyIdx (pySplit ("&".toList) (pyIdx (pySplit ("?".toList) (pyIdx (pySplit shortMarker url) 1)) 0)) 0)
  else if containsSub watchMarker url then
    some (pyIdx (pySplit ("&".toList) (pyIdx (pySplit vMarker url) 1)) 0)
  else if containsSub embedMarker url then
    some (pyIdx (pySplit ("?".toList) (pyIdx (pySplit embedMarker url) 1)) 0)
  else none

/-- Model of `security.extract_video_id`. -/
def extractVideoId (url : List Char) : Except ExtractErr (List Char) :=
  if validateYoutubeUrl url = false then Except.error ExtractErr.invalidUrl
  else
    match candidateVideoId url with
    | none => Except.error ExtractErr.unableToExtract
    | some v =>
      if v = [] ∨ v.length ≠ 11 then Except.error ExtractErr.invalidVideoId
      else Except.ok v

/-! ### `app/models/transcript_models.py` -/

/-- Model of `FileFormat` (`both` means txt and pdf). -/
inductive FileFormat where
  | txt
  | pdf
  | json
  | both
deriving DecidableEq

/-- Model of `TranscriptStatus`. -/
inductive TranscriptStatus where
  | pending
  | processing
  | completed
  | failed
deriving DecidableEq

/-- Model of `VideoInfo` (the unused optional `duration`/`language` fields are elided). -/
structure VideoInfo where
  video_id : List Char
  url : List Char
  title : Option (List Char) := none
deriving DecidableEq

/-- Model of `TranscriptSnippet`; `start`/`duration` are seconds. -/
structure TranscriptSnippet where
  text : List Char
  start : ℚ
  duration : ℚ
deriving DecidableEq

/-- Model of `TranscriptData`. -/
structure TranscriptData where
  video_info : VideoInfo
  snippets : List TranscriptSnippet
  full_text : List Char
  language : List Char
  is_generated : Bool
  word_count : ℕ
  duration_seconds : ℚ
deriving DecidableEq

/-- Model of `FileOutput` (the unused `download_url` field is elided). -/
structure FileOutput where
  filename : List Char
  format : FileFormat
  size_bytes : ℕ
  file_path : List Char
deriving DecidableEq

/-- Model of `TranscriptResponse`. -/
structure TranscriptResponse where
  task_id : List Char
  status : TranscriptStatus
  video_info : VideoInfo
  transcript_data : Option TranscriptData := none
  files : List FileOutput := []
  error_message : Option (List Char) := none
  created_at : ℚ
  completed_at : Option ℚ := none
  processing_time_seconds : Option ℚ := none
deriving DecidableEq

/-! ### `app/services/video_service.py` -/

/-- What the external `YouTubeTranscriptApi.fetch` hands back on success:
the ordered caption entries plus the track's language code and
generated-vs-human flag.  The fetch itself is external; `fetch_transcript`'s
own work starts from this value. -/
structure FetchedTranscript where
  entries : List TranscriptSnippet
  language_code : List Char
  is_generated : Bool
deriving DecidableEq

/-- The dict returned by `VideoService.fetch_transcript`. -/
structure FetchResult where
  snippets : List TranscriptSnippet
  full_text : List Char
  language : List Char
  is_generated : Bool
  word_count : ℕ
  duration_seconds : ℚ
deriving DecidableEq

/-- Python `max(list)` on a nonempty list (the `[]` case is guarded in the
source and never reached). -/
def pyMax : List ℚ → ℚ
  | [] => 0
  | x :: xs => xs.foldl max x

/-- The success path of `VideoService.fetch_transcript` (lines 91-114): the
snippet list, `full_text` accumulated as `entry.text + " "` then stripped,
`word_count = len(full_text.split())` computed on the unstripped
accumulator, and `duration_seconds = max(start + duration)` or `0`. -/
def fetchTranscriptConvert (ft : FetchedTranscript) : FetchResult :=
  let snippets := ft.entries.map (fun e => TranscriptSnippet.mk e.text e.start e.duration)
  let full_text := (ft.entries.map (fun e => e.text ++ [' '])).flatten
  { snippets := snippets
    full_text := pyStrip full_text
    language := ft.language_code
    is_generated := ft.is_generated
    word_count := (pyWsSplit full_text).length
    duration_seconds :=
      if snippets ≠ [] then pyMax (snippets.map (fun s => s.start + s.duration)) else 0 }

/-! ### `app/services/storage_service.py` -/

/-- Which of the three low-level writers (`_save_as_txt`, `_save_as_pdf`,
`_save_as_json`) would succeed in this call; failure models the writer
raising (a filesystem or reportlab error). -/
structure WriteOutcome where
  txtOk : Bool
  pdfOk : Bool
  jsonOk : Bool
deriving DecidableEq

/-- The base filename of `StorageService.save_transcript` (lines 38-46):
sanitized custom name or `<video_id>_transcript`, plus `_<timestamp>`. -/
def saveBaseFilename (td : TranscriptData) (custom : Option (List Char))
    (timestamp : List Char) : List Char :=
  (match custom with
   | some c => sanitizeFilename c
   | none => td.video_info.video_id ++ "_transcript".toList) ++ "_".toList ++ timestamp

/-- Path join `self.output_dir / filename`. -/
def joinPath (outDir filename : List Char) : List Char := outDir ++ "/".toList ++ filename

def txtFilePath (outDir base : List Char) : List Char := joinPath outDir (base ++ ".txt".toList)

def pdfFilePath (outDir base : List Char) : List Char := joinPath outDir (base ++ ".pdf".toList)

def jsonFilePath (outDir base : List Char) : List Char := joinPath outDir (base ++ ".json".toList)

/-- The `FileOutput` built by `_save_as_txt`; `fsize` models `stat().st_size`. -/
def txtOutput (fsize : List Char → ℕ) (outDir base : List Char) : FileOutput :=
  { filename := base ++ ".txt".toList, format := FileFormat.txt
    size_bytes := fsize (txtFilePath outDir base), file_path := txtFilePath outDir base }

/-- The `FileOutput` built by `_save_as_pdf`. -/
def pdfOutput (fsize : List Char → ℕ) (outDir base : List Char) : FileOutput :=
  { filename := base ++ ".pdf".toList, format := FileFormat.pdf
    size_bytes := fsize (pdfFilePath outDir base), file_path := pdfFilePath outDir base }

/-- The `FileOutput` built by `_save_as_json`. -/
def jsonOutput (fsize : List Char → ℕ) (outDir base : List Char) : FileOutput :=
  { filename := base ++ ".json".toList, format := FileFormat.json
    size_bytes := fsize (jsonFilePath outDir base), file_path := jsonFilePath outDir base }

/-- The `except` block of `save_transcript` (lines 64-72): best-effort
`os.remove` of every file appended to `files` so far.  The removal itself is
modelled as succeeding; the `except: pass` around it only matters when the
OS fails the unlink, which is below this model. -/
def cleanupFiles (disk : List (List Char)) (files : List FileOutput) : List (List Char) :=
  files.foldl (fun d f => d.erase f.file_path) disk

/-- Model of `StorageService.save_transcript` (lines 29-72) over a disk modelled as
the list of paths present.  The source runs up to three conditional writes
(txt for TXT/BOTH, then pdf for PDF/BOTH, then json for JSON), appending to
`files`, and on any raise removes the files written so far and re-raises;
this definition unrolls those sequential conditionals per format value.
File contents are below the claims' granularity and are elided.  Returns the
final disk and either the `FileOutput` list or the propagated error. -/
def saveTranscript (w : WriteOutcome) (fsize : List Char → ℕ) (outDir : List Char)
    (disk0 : List (List Char)) (td : TranscriptData) (fmt : FileFormat)
    (custom : Option (List Char)) (timestamp : List Char) :
    List (List Char) × Except (List Char) (List FileOutput) :=
  let base := saveBaseFilename td custom timestamp
  if fmt = FileFormat.txt ∨ fmt = FileFormat.both then
    if w.txtOk then
      let d1 := disk0 ++ [txtFilePath outDir base]
      let f1 := [txtOutput fsize outDir base]
      if fmt = FileFormat.both then
        if w.pdfOk then
          (d1 ++ [pdfFilePath outDir base], Except.ok (f1 ++ [pdfOutput fsize outDir base]))
        else (cleanupFiles d1 f1, Except.error ("pdf export failed".toList))
      else (d1, Except.ok f1)
    else (cleanupFiles disk0 [], Except.error ("txt export failed".toList))
  else if fmt = FileFormat.pdf then
    if w.pdfOk then
      (disk0 ++ [pdfFilePath outDir base], Except.ok [pdfOutput fsize outDir base])
    else (cleanupFiles disk0 [], Except.error ("pdf export failed".toList))
  else if fmt = FileFormat.json then
    if w.jsonOk then
      (disk0 ++ [jsonFilePath outDir base], Except.ok [jsonOutput fsize outDir base])
    else (cleanupFiles disk0 [], Except.error ("json export failed".toList))
  else (disk0, Except.ok [])

/-- The file count the specification associates with each requested format. -/
def expectedFileCount : FileFormat → ℕ
  | FileFormat.both => 2
  | _ => 1

/-- Model of `StorageService.delete_file`: unlink if the path exists, reporting
whether a file was removed. -/
def deleteFile (disk : List (List Char)) (path : List Char) : Bool × List (List Char) :=
  if path ∈ disk then (true, disk.erase path) else (false, disk)


/-! ### `app/services/transcription_service.py` -/

/-- Lookup `self._tasks[task_id]` / `task_id in self._tasks` on the in-memory task
dict, modelled as an association list with distinct keys. -/
def lookupTask (tasks : List (List Char × TranscriptResponse)) (task_id : List Char) :
    Option TranscriptResponse :=
  (tasks.find? (fun p => p.1 = task_id)).map (fun p => p.2)

/-- Assignment `self._tasks[task_id] = response` for an existing key. -/
def updateTask (tasks : List (List Char × TranscriptResponse)) (task_id : List Char)
    (r : TranscriptResponse) : List (List Char × TranscriptResponse) :=
  tasks.map (fun p => if p.1 = task_id then (p.1, r) else p)

/-- The pending record built by `create_transcript_task` (lines 40-45). -/
def createResponse (task_id : List Char) (vi : VideoInfo) (tNow : ℚ) : TranscriptResponse :=
  { task_id := task_id, status := TranscriptStatus.pending, video_info := vi, created_at := tNow }

/-- Model of `TranscriptionService.process_transcript` (lines 53-117).  The external
fetch outcome is the `fetched` parameter (`Except.error e` models
`fetch_transcript` raising with message `e`); the export step is the
`saveTranscript` model above.  A missing task raises `ValueError`, which is
the only exception that escapes; every other failure is captured in the
stored record.  `tStart`/`tEnd` are the two `datetime.utcnow()` readings.
Returns the updated task map, the disk, and the returned record. -/
def processTranscript (w : WriteOutcome) (fsize : List Char → ℕ) (outDir : List Char)
    (disk : List (List Char)) (tasks : List (List Char × TranscriptResponse))
    (task_id : List Char) (fmt : FileFormat) (custom : Option (List Char))
    (fetched : Except (List Char) FetchedTranscript) (timestamp : List Char)
    (tStart tEnd : ℚ) :
    Except (List Char) (List (List Char × TranscriptResponse) × List (List Char) × TranscriptResponse) :=
  match lookupTask tasks task_id with
  | none => Except.error ("Task not found".toList)
  | some response =>
    let resp1 := { response with status := TranscriptStatus.processing }
    match fetched with
    | Except.error e =>
      let respF := { resp1 with
        status := TranscriptStatus.failed
        error_message := some e
        completed_at := some tEnd
        processing_time_seconds := some (tEnd - tStart) }
      Except.ok (updateTask tasks task_id respF, disk, respF)
    | Except.ok ft =>
      let tr := fetchTranscriptConvert ft
      let td : TranscriptData :=
        { video_info := response.video_info, snippets := tr.snippets,
          full_text := tr.full_text, language := tr.language,
          is_generated := tr.is_generated, word_count := tr.word_count,
          duration_seconds := tr.duration_seconds }
      match saveTranscript w fsize outDir disk td fmt custom timestamp with
      | (disk1, Except.error e) =>
        let respF := { resp1 with
          status := TranscriptStatus.failed
          error_message := some e
          completed_at := some tEnd
          processing_time_seconds := some (tEnd - tStart) }
        Except.ok (updateTask tasks task_id respF, disk1, respF)
      | (disk1, Except.ok files) =>
        let respC := { resp1 with
          transcript_data := some td
          files := files
          status := TranscriptStatus.completed
          completed_at := some tEnd
          processing_time_seconds := some (tEnd - tStart) }
        Except.ok (updateTask tasks task_id respC, disk1, respC)

/-- Model of `TranscriptionService.delete_task` (lines 130-148): `false` for an
unknown id; otherwise best-effort `delete_file` on each associated file,
removal of the record, and `true`. -/
def deleteTask (disk : List (List Char)) (tasks : List (List Char × TranscriptResponse))
    (task_id : List Char) : Bool × List (List Char × TranscriptResponse) × List (List Char) :=
  match lookupTask tasks task_id with
  | none => (false, tasks, disk)
  | some r =>
    let disk2 := r.files.foldl (fun d f => (deleteFile d f.file_path).2) disk
    (true, tasks.filter (fun p => ¬ (p.1 = task_id)), disk2)

/-! ### `StorageService.cleanup_old_files` (lines 261-275) -/

/-- One entry of `output_dir.iterdir()`: name, `st_mtime`, and whether
`is_file()` holds. -/
structure DirEntry where
  name : List Char
  mtime : ℚ
  isFile : Bool
deriving DecidableEq

/-- The deletion loop of `cleanup_old_files`: `ok` models whether
`file_path.unlink()` succeeds (a failed unlink is logged, leaves the file,
and is not counted).  Returns the count of deleted files and the surviving
entries, in order. -/
def cleanupGo (ok : List Char → Bool) (cutoff : ℚ) : List DirEntry → ℕ × List DirEntry
  | [] => (0, [])
  | e :: rest =>
    let p := cleanupGo ok cutoff rest
    if e.isFile = true ∧ e.mtime < cutoff then
      if ok e.name then (p.1 + 1, p.2) else (p.1, e :: p.2)
    else (p.1, e :: p.2)

/-- Model of `StorageService.cleanup_old_files`:
`cutoff = utcnow().timestamp() - days_old * 24 * 60 * 60`. -/
def cleanupOldFiles (ok : List Char → Bool) (now : ℚ) (daysOld : ℕ)
    (entries : List DirEntry) : ℕ × List DirEntry :=
  cleanupGo ok (now - (daysOld : ℚ) * 24 * 60 * 60) entries

/-! ### `_save_as_pdf` paragraph segmentation (lines 164-175) -/

/-- The paragraph texts appended to the PDF story: split `full_text` on
`'. '`, skip fragments that strip to empty, re-add `'.'` to a non-final
fragment that does not already end with `'.'`, and strip each paragraph. -/
def pdfParagraphs (t : List Char) : List (List Char) :=
  let sentences := pySplit (". ".toList) t
  sentences.enum.filterMap (fun p =>
    if pyStrip p.2 = [] then none
    else some (pyStrip
      (if p.1 < sentences.length - 1 ∧ ¬ (List.isSuffixOf (".".toList) p.2) then
        p.2 ++ ".".toList
      else p.2)))

/-- The re-punctuation rule in the words of the specification: a period is
re-appended to every fragment except the final one when the fragment does
not already end with a period (`n` fragments, fragment index `i`). -/
def specRepunct (n i : Nat) (s : List Char) : List Char :=
  if i < n - 1 ∧ ¬ (List.isSuffixOf (".".toList) s) then s ++ ".".toList else s

/-! ### `_save_as_json` (lines 187-228) -/

/-- JSON values, for the object built by `_save_as_json`; Python's `json`
module round-trips this structure, so the claims are settled on the tree. -/
inductive JVal where
  | jnull : JVal
  | jbool : Bool → JVal
  | jnum : ℚ → JVal
  | jstr : List Char → JVal
  | jarr : List JVal → JVal
  | jobj : List (List Char × JVal) → JVal

/-- Field lookup in a JSON object. -/
def jget (k : List Char) : JVal → Option JVal
  | JVal.jobj fields => (fields.find? (fun p => p.1 = k)).map (fun p => p.2)
  | _ => none

/-- One element of the `"snippets"` array. -/
def snippetToJson (s : TranscriptSnippet) : JVal :=
  JVal.jobj [("text".toList, JVal.jstr s.text),
             ("start".toList, JVal.jnum s.start),
             ("duration".toList, JVal.jnum s.duration)]

/-- The `data` dict of `_save_as_json`; `hash` models
`security.generate_file_hash` (an external sha256 hex digest) and
`generatedAt` the `datetime.utcnow().isoformat()` string. -/
def transcriptToJson (hash : List Char → List Char) (generatedAt : List Char)
    (td : TranscriptData) : JVal :=
  JVal.jobj [
    ("video_info".toList, JVal.jobj [
      ("video_id".toList, JVal.jstr td.video_info.video_id),
      ("url".toList, JVal.jstr td.video_info.url),
      ("title".toList, match td.video_info.title with
        | some t => JVal.jstr t
        | none => JVal.jnull)]),
    ("transcript".toList, JVal.jobj [
      ("language".toList, JVal.jstr td.language),
      ("is_generated".toList, JVal.jbool td.is_generated),
      ("word_count".toList, JVal.jnum (td.word_count : ℚ)),
      ("duration_seconds".toList, JVal.jnum td.duration_seconds),
      ("full_text".toList, JVal.jstr td.full_text),
      ("snippets".toList, JVal.jarr (td.snippets.map snippetToJson))]),
    ("metadata".toList, JVal.jobj [
      ("generated_at".toList, JVal.jstr generatedAt),
      ("content_hash".toList, JVal.jstr (hash td.full_text))])]

/-- Reading one snippet back out of its JSON object. -/
def decodeSnippet (j : JVal) : Option TranscriptSnippet :=
  match jget ("text".toList) j, jget ("start".toList) j, jget ("duration".toList) j with
  | some (JVal.jstr t), some (JVal.jnum st), some (JVal.jnum d) =>
    some (TranscriptSnippet.mk t st d)
  | _, _, _ => none

/-! ### `app/api/dependencies.py` — `RateLimiter` (lines 75-105) -/

/-- The two constructor parameters of `RateLimiter`. -/
structure RateLimiter where
  max_requests : ℕ
  window_minutes : ℚ

/-- Model of `RateLimiter.is_allowed` acting on one client's stored timestamp list
(`self._requests.get(client_id, [])`): drop entries at or before
`now - window_minutes * 60`, refuse when the surviving count reaches
`max_requests`, otherwise record `now` and allow. -/
def isAllowed (rl : RateLimiter) (prev : List ℚ) (now : ℚ) : Bool × List ℚ :=
  let window_start := now - rl.window_minutes * 60
  let kept := prev.filter (fun t => window_start < t)
  if rl.max_requests ≤ kept.length then (false, kept)
  else (true, kept ++ [now])

/-- The per-client states reachable through `is_allowed` from the empty
dict entry (arbitrary call times). -/
inductive ReachableReq (rl : RateLimiter) : List ℚ → Prop where
  | init : ReachableReq rl []
  | step (prev : List ℚ) (now : ℚ) :
      ReachableReq rl prev → ReachableReq rl (isAllowed rl prev now).2

/-! ### Claim-side definitions for the extractor claims -/

/-- A character of a well-formed 11-character video identifier
(`[A-Za-z0-9_-]`). -/
def idChar (c : Char) : Prop := c.isAlphanum = true ∨ c = '-' ∨ c = '_'

instance (c : Char) : Decidable (idChar c) := by
  unfold idChar
  infer_instance

/-- A valid video identifier: 11 characters over the id alphabet. -/
def validId (id : List Char) : Prop := id.length = 11 ∧ ∀ c ∈ id, idChar c

instance (id : List Char) : Decidable (validId id) := by
  unfold validId
  infer_instance

/-- Short-link shape: the text after the first `youtu.be/` is the identifier
followed by nothing or by a `?`- or `&`-led suffix, with no further
occurrence of the marker. -/
def ShortShape (url id : List Char) : Prop :=
  ∃ post, afterFirst shortMarker url = some (id ++ post)
    ∧ containsSub shortMarker (id ++ post) = false
    ∧ (post = [] ∨ (∃ t, post = '?' :: t) ∨ (∃ t, post = '&' :: t))

/-- Watch shape: a recognized domain occurs, `watch?v=` occurs and
`youtu.be/` does not, and the text after the first `v=` is the identifier
followed by nothing or by a `&`-led suffix, with no further `v=`. -/
def WatchShape (url id : List Char) : Prop :=
  validateYoutubeUrl url = true
    ∧ containsSub shortMarker url = false
    ∧ containsSub watchMarker url = true
    ∧ ∃ post, afterFirst vMarker url = some (id ++ post)
        ∧ containsSub vMarker (id ++ post) = false
        ∧ (post = [] ∨ ∃ t, post = '&' :: t)

/-- Embed shape: a recognized domain occurs, neither `youtu.be/` nor
`watch?v=` occurs, and the text after the first `embed/` is the identifier
followed by nothing or by a `?`-led suffix, with no further `embed/`. -/
def EmbedShape (url id : List Char) : Prop :=
  validateYoutubeUrl url = true
    ∧ containsSub shortMarker url = false
    ∧ containsSub watchMarker url = false
    ∧ ∃ post, afterFirst embedMarker url = some (id ++ post)
        ∧ containsSub embedMarker (id ++ post) = false
        ∧ (post = [] ∨ ∃ t, post = '?' :: t)

/-- The extraction described by the words of claim C8: the segment after the
first occurrence of the matching marker (`youtu.be/`, `watch?v=`, `embed/`),
with any trailing `?`-delimited or `&`-delimited suffix stripped. -/
def claimExtractedId (url : List Char) : Option (List Char) :=
  if containsSub shortMarker url then
    (afterFirst shortMarker url).map (fun r => beforeFirst ("&".toList) (beforeFirst ("?".toList) r))
  else if containsSub watchMarker url then
    (afterFirst watchMarker url).map (fun r => beforeFirst ("&".toList) (beforeFirst ("?".toList) r))
  else if containsSub embedMarker url then
    (afterFirst embedMarker url).map (fun r => beforeFirst ("&".toList) (beforeFirst ("?".toList) r))
  else none

/-- The host component of a URL, as the words of claim C2 refer to it (the
authority between `://` and the next `/`, `?` or `#`).  The source never
computes a host; this definition only serves to state the claim. -/
def claimUrlHost (url : List Char) : List Char :=
  beforeFirst ("/".toList)
    (beforeFirst ("?".toList)
      (beforeFirst ("#".toList) ((afterFirst ("://".toList) url).getD url)))

/-! ### Concrete inputs used by the witnesses -/

def sampleVideoInfo : VideoInfo :=
  { video_id := "abc12345678".toList, url := "https://youtu.be/abc12345678".toList }

def sampleResponse : TranscriptResponse :=
  createResponse ("t1".toList) sampleVideoInfo 0

def sampleTD : TranscriptData :=
  { video_info := sampleVideoInfo, snippets := [], full_text := "hi".toList
    language := "en".toList, is_generated := false, word_count := 1
    duration_seconds := 0 }

def sampleFetch : FetchedTranscript :=
  { entries := [TranscriptSnippet.mk ("hello".toList) 0 1,
                TranscriptSnippet.mk ("world".toList) 1 2]
    language_code := "en".toList, is_generated := false }

def sampleFileOutput : FileOutput :=
  { filename := "a.txt".toList, format := FileFormat.txt, size_bytes := 3
    file_path := "out/a.txt".toList }

/-! ### Helper lemmas about the string primitives -/

theorem isPre_ex : ∀ (sep s : List Char), isPre sep s = true → ∃ t, s = sep ++ t := by
  intro sep
  induction sep with
  | nil => intro s _; exact ⟨s, rfl⟩
  | cons a as ih =>
    intro s h
    cases s with
    | nil => simp [isPre] at h
    | cons b bs =>
      simp [isPre] at h
      obtain ⟨t, ht⟩ := ih bs h.2
      exact ⟨t, by rw [h.1, ht]; rfl⟩

theorem isPre_append_self : ∀ (sep t : List Char), isPre sep (sep ++ t) = true := by
  intro sep t
  induction sep with
  | nil => rfl
  | cons a as ih => simp [isPre, ih]

theorem afterFirst_decomp (sep : List Char) :
    ∀ s r, afterFirst sep s = some r → s = beforeFirst sep s ++ sep ++ r := by
  intro s
  induction s with
  | nil => intro r h; simp [afterFirst] at h
  | cons c rest ih =>
    intro r h
    by_cases hp : isPre sep (c :: rest) = true
    · simp [afterFirst, hp] at h
      obtain ⟨t, ht⟩ := isPre_ex sep (c :: rest) hp
      simp [beforeFirst, hp]
      rw [ht] at h ⊢
      rw [List.drop_left] at h
      rw [← h]
    · simp [afterFirst, hp] at h
      have h2 := ih r h
      simp [beforeFirst, hp]
      rw [← List.append_assoc, ← h2]

theorem containsSub_append (sep : List Char) (hsep : sep ≠ []) :
    ∀ (a b : List Char), containsSub sep (a ++ (sep ++ b)) = true := by
  intro a b
  induction a with
  | nil =>
    cases sep with
    | nil => exact absurd rfl hsep
    | cons c cs =>
      rw [List.nil_append, List.cons_append]
      simp [containsSub]
      left
      have := isPre_append_self (c :: cs) b
      rw [List.cons_append] at this
      simpa using this
  | cons x xs ih =>
    rw [List.cons_append]
    simp [containsSub] at ih ⊢
    right
    exact ih

theorem afterFirst_isSome_contains (sep : List Char) :
    ∀ s r, afterFirst sep s = some r → containsSub sep s = true := by
  intro s
  induction s with
  | nil => intro r h; simp [afterFirst] at h
  | cons c rest ih =>
    intro r h
    by_cases hp : isPre sep (c :: rest) = true
    · simp [containsSub, hp]
    · simp [afterFirst, hp] at h
      simp [containsSub, ih r h]

theorem containsSub_ex (sep : List Char) :
    ∀ s, containsSub sep s = true → ∃ a b, s = a ++ (sep ++ b) := by
  intro s
  induction s with
  | nil =>
    intro h
    cases sep with
    | nil => exact ⟨[], [], rfl⟩
    | cons c cs => simp [containsSub, isPre] at h
  | cons c rest ih =>
    intro h
    simp [containsSub] at h
    rcases h with h | h
    · obtain ⟨t, ht⟩ := isPre_ex sep (c :: rest) (by simpa using h)
      exact ⟨[], t, by rw [ht]; rfl⟩
    · obtain ⟨a, b, hab⟩ := ih h
      exact ⟨c :: a, b, by rw [hab]; rfl⟩

theorem mem_of_containsSub {sep s : List Char} {c : Char}
    (h : containsSub sep s = true) (hc : c ∈ sep) : c ∈ s := by
  obtain ⟨a, b, hab⟩ := containsSub_ex sep s h
  rw [hab]
  simp [hc]

theorem containsSub_false_of_not_mem {sep s : List Char} {c : Char}
    (hc : c ∈ sep) (hs : c ∉ s) : containsSub sep s = false := by
  cases h : containsSub sep s with
  | false => rfl
  | true => exact absurd (mem_of_containsSub h hc) hs

theorem afterFirst_none_beforeFirst (sep : List Char) :
    ∀ s, afterFirst sep s = none → beforeFirst sep s = s := by
  intro s
  induction s with
  | nil => intro _; rfl
  | cons c rest ih =>
    intro h
    by_cases hp : isPre sep (c :: rest) = true
    · simp [afterFirst, hp] at h
    · simp [afterFirst, hp] at h
      simp [beforeFirst, hp, ih h]

theorem beforeFirst_of_not_contains (sep : List Char) :
    ∀ s, containsSub sep s = false → beforeFirst sep s = s := by
  intro s
  induction s with
  | nil => intro _; rfl
  | cons c rest ih =>
    intro h
    simp [containsSub] at h
    simp [beforeFirst, h.1, ih h.2]

theorem beforeFirst_single_cons_self (c : Char) (t : List Char) :
    beforeFirst [c] (c :: t) = [] := by
  simp [beforeFirst, isPre]

theorem beforeFirst_single_cons_ne {c d : Char} (h : d ≠ c) (t : List Char) :
    beforeFirst [c] (d :: t) = d :: beforeFirst [c] t := by
  have hp : isPre [c] (d :: t) = false := by
    simp [isPre]
    exact fun hcd => absurd hcd.symm h
  simp [beforeFirst, hp]

theorem beforeFirst_single_append {c : Char} {a : List Char} (h : c ∉ a) (b : List Char) :
    beforeFirst [c] (a ++ b) = a ++ beforeFirst [c] b := by
  induction a with
  | nil => rfl
  | cons d as ih =>
    have hd : d ≠ c := fun hdc => h (by rw [hdc]; exact List.mem_cons_self c as)
    have has : c ∉ as := fun hmem => h (List.mem_cons_of_mem d hmem)
    rw [List.cons_append, beforeFirst_single_cons_ne hd, ih has, List.cons_append]

theorem pySplitF_getD_zero (sep : List Char) (f : Nat) (s : List Char) (hf : 1 ≤ f) :
    (pySplitF sep f s).getD 0 [] = beforeFirst sep s := by
  cases f with
  | zero => exact absurd hf (by simp)
  | succ f =>
    rw [pySplitF]
    cases h : afterFirst sep s with
    | none => simp [afterFirst_none_beforeFirst sep s h]
    | some r => simp

theorem pySplit_getD_zero (sep s : List Char) :
    (pySplit sep s).getD 0 [] = beforeFirst sep s :=
  pySplitF_getD_zero sep (s.length + 1) s (Nat.succ_le_succ (Nat.zero_le _))

theorem length_pos_of_afterFirst {sep s r : List Char} (hsep : sep ≠ [])
    (h : afterFirst sep s = some r) : r.length + 1 ≤ s.length := by
  have hd := afterFirst_decomp sep s r h
  have hlen2 := congrArg List.length hd
  simp only [List.length_append] at hlen2
  have hsl : 1 ≤ sep.length := by
    cases sep with
    | nil => exact absurd rfl hsep
    | cons _ _ => simp
  omega

theorem pySplit_getD_one {sep s r : List Char} (hsep : sep ≠ [])
    (h : afterFirst sep s = some r) :
    (pySplit sep s).getD 1 [] = beforeFirst sep r := by
  have hlen := length_pos_of_afterFirst hsep h
  rw [pySplit]
  rw [pySplitF, h]
  have : (beforeFirst sep s :: pySplitF sep s.length r).getD 1 []
      = (pySplitF sep s.length r).getD 0 [] := rfl
  rw [this]
  exact pySplitF_getD_zero sep s.length r (by omega)

theorem pySplitF_ne_nil (sep : List Char) (f : Nat) (s : List Char) :
    pySplitF sep f s ≠ [] := by
  cases f with
  | zero => simp [pySplitF]
  | succ f =>
    rw [pySplitF]
    cases afterFirst sep s with
    | none => simp
    | some r => simp

theorem pyJoin_cons (sep x : List Char) (l : List (List Char)) (hl : l ≠ []) :
    pyJoin sep (x :: l) = x ++ sep ++ pyJoin sep l := by
  cases l with
  | nil => exact absurd rfl hl
  | cons y rest => rfl

theorem pyJoin_pySplitF (sep : List Char) (hsep : sep ≠ []) :
    ∀ (f : Nat) (s : List Char), s.length < f → pyJoin sep (pySplitF sep f s) = s := by
  intro f
  induction f with
  | zero => intro s h; exact absurd h (by simp)
  | succ f ih =>
    intro s hlt
    rw [pySplitF]
    cases h : afterFirst sep s with
    | none => rfl
    | some r =>
      have hlen := length_pos_of_afterFirst hsep h
      rw [pyJoin_cons sep _ _ (pySplitF_ne_nil sep f r)]
      rw [ih r (by omega)]
      exact (afterFirst_decomp sep s r h).symm

theorem beforeFirst_append_ex (sep : List Char) :
    ∀ s, ∃ t, s = beforeFirst sep s ++ t := by
  intro s
  induction s with
  | nil => exact ⟨[], rfl⟩
  | cons c rest ih =>
    by_cases hp : isPre sep (c :: rest) = true
    · exact ⟨c :: rest, by simp [beforeFirst, hp]⟩
    · obtain ⟨t, ht⟩ := ih
      exact ⟨t, by simp [beforeFirst, hp]; exact ht⟩

theorem beforeFirst_not_contains (sep : List Char) (hsep : sep ≠ []) :
    ∀ s, containsSub sep (beforeFirst sep s) = false := by
  intro s
  induction s with
  | nil =>
    cases sep with
    | nil => exact absurd rfl hsep
    | cons a as => simp [beforeFirst, containsSub, isPre]
  | cons c rest ih =>
    by_cases hp : isPre sep (c :: rest) = true
    · simp [beforeFirst, hp]
      cases sep with
      | nil => exact absurd rfl hsep
      | cons a as => simp [containsSub, isPre]
    · simp only [beforeFirst, hp, if_false]
      simp only [containsSub, Bool.or_eq_false_iff]
      constructor
      · cases hq : isPre sep (c :: beforeFirst sep rest) with
        | false => rfl
        | true =>
          exfalso
          obtain ⟨u, hu⟩ := isPre_ex sep _ hq
          obtain ⟨t, ht⟩ := beforeFirst_append_ex sep rest
          have : c :: rest = sep ++ (u ++ t) := by
            rw [ht]
            conv_lhs => rw [show c :: (beforeFirst sep rest ++ t) = (c :: beforeFirst sep rest) ++ t from rfl]
            rw [hu, List.append_assoc]
          have : isPre sep (c :: rest) = true := by rw [this]; exact isPre_append_self sep _
          exact hp this
      · exact ih

theorem containsSub_afterFirst_isSome (sep : List Char) (hsep : sep ≠ []) :
    ∀ s, containsSub sep s = true → afterFirst sep s ≠ none := by
  intro s
  induction s with
  | nil =>
    intro h
    cases sep with
    | nil => exact absurd rfl hsep
    | cons a as => simp [containsSub, isPre] at h
  | cons c rest ih =>
    intro h
    by_cases hp : isPre sep (c :: rest) = true
    · simp [afterFirst, hp]
    · simp [containsSub, hp] at h
      simp [afterFirst, hp]
      exact ih h

theorem pySplitF_not_contains (sep : List Char) (hsep : sep ≠ []) :
    ∀ (f : Nat) (s : List Char), s.length < f →
      ∀ frag ∈ pySplitF sep f s, containsSub sep frag = false := by
  intro f
  induction f with
  | zero => intro s h; exact absurd h (by simp)
  | succ f ih =>
    intro s hlt frag hfrag
    rw [pySplitF] at hfrag
    cases h : afterFirst sep s with
    | none =>
      rw [h] at hfrag
      simp at hfrag
      rw [hfrag]
      cases hc : containsSub sep s with
      | false => rfl
      | true => exact absurd h (containsSub_afterFirst_isSome sep hsep s hc)
    | some r =>
      rw [h] at hfrag
      have hlen := length_pos_of_afterFirst hsep h
      rcases List.mem_cons.mp hfrag with h1 | h1
      · rw [h1]
        exact beforeFirst_not_contains sep hsep s
      · exact ih r (by omega) frag h1

theorem cleanupGo_spec (ok : List Char → Bool) (cutoff : ℚ) :
    ∀ entries : List DirEntry,
      cleanupGo ok cutoff entries
        = ((entries.filter (fun e => e.isFile && decide (e.mtime < cutoff) && ok e.name)).length,
           entries.filter (fun e => ! (e.isFile && decide (e.mtime < cutoff) && ok e.name))) := by
  intro entries
  induction entries with
  | nil => rfl
  | cons e rest ih =>
    cases hf : e.isFile with
    | false => simp [cleanupGo, ih, hf, List.filter_cons]
    | true =>
      by_cases hm : e.mtime < cutoff
      · cases hk : ok e.name with
        | true => simp [cleanupGo, ih, hf, hm, hk, List.filter_cons]
        | false => simp [cleanupGo, ih, hf, hm, hk, List.filter_cons]
      · simp [cleanupGo, ih, hf, hm, List.filter_cons]

/-- C9: the PDF exporter's paragraph segmentation splits the transcript body
on the literal substring `". "` — the fragments re-join to the original text
and contain no further `". "` occurrence — and the paragraphs are exactly
those fragments under the specification's re-punctuation rule (a period is
re-appended to every non-final fragment that does not already end with one),
with the source's skip-blank and strip steps applied. -/
theorem pdf_paragraph_segmentation (t : List Char) :
    pyJoin (". ".toList) (pySplit (". ".toList) t) = t
    ∧ pdfParagraphs t = (pySplit (". ".toList) t).enum.filterMap (fun p =>
        if pyStrip p.2 = [] then none
        else some (pyStrip (specRepunct (pySplit (". ".toList) t).length p.1 p.2)))
    ∧ (pySplit (". ".toList) t).all (fun frag => ! containsSub (". ".toList) frag) = true := by
  refine ⟨?_, ?_, ?_⟩
  · exact pyJoin_pySplitF (". ".toList) (by decide) (t.length + 1) t (Nat.lt_succ_self _)
  · rfl
  · rw [List.all_eq_true]
    intro frag hfrag
    have := pySplitF_not_contains (". ".toList) (by decide) (t.length + 1) t
      (Nat.lt_succ_self _) frag hfrag
    simpa using this

/-- C6: `cleanup_old_files(days_old=7)` deletes exactly the files whose
modification time is strictly older than `7 × 86400` seconds before now
(among those whose unlink succeeds), leaves every other entry untouched and
in order, and returns the count of files actually deleted. -/
theorem cleanup_old_files_exact (ok : List Char → Bool) (now : ℚ) (entries : List DirEntry) :
    cleanupOldFiles ok now 7 entries
      = ((entries.filter (fun e => e.isFile && decide (e.mtime < now - 7 * 86400) && ok e.name)).length,
         entries.filter (fun e => ! (e.isFile && decide (e.mtime < now - 7 * 86400) && ok e.name))) := by
  have hc : now - ((7 : ℕ) : ℚ) * 24 * 60 * 60 = now - 7 * 86400 := by norm_num
  rw [cleanupOldFiles, hc]
  exact cleanupGo_spec ok (now - 7 * 86400) entries

/-- C7: reading the JSON object written by `_save_as_json` back recovers the
same video id, the same language, the same word count, and a snippets array
whose elements decode, in order, to exactly the original snippet sequence. -/
theorem json_round_trip (hash : List Char → List Char) (generatedAt : List Char)
    (td : TranscriptData) :
    ((jget ("video_info".toList) (transcriptToJson hash generatedAt td)).bind
        (jget ("video_id".toList)))
      = some (JVal.jstr td.video_info.video_id)
    ∧ ((jget ("transcript".toList) (transcriptToJson hash generatedAt td)).bind
        (jget ("language".toList)))
      = some (JVal.jstr td.language)
    ∧ ((jget ("transcript".toList) (transcriptToJson hash generatedAt td)).bind
        (jget ("word_count".toList)))
      = some (JVal.jnum (td.word_count : ℚ))
    ∧ ((jget ("transcript".toList) (transcriptToJson hash generatedAt td)).bind
        (jget ("snippets".toList)))
      = some (JVal.jarr (td.snippets.map snippetToJson))
    ∧ (td.snippets.map snippetToJson).map decodeSnippet = td.snippets.map some := by
  refine ⟨rfl, rfl, rfl, rfl, ?_⟩
  have hall : ∀ l : List TranscriptSnippet,
      (l.map snippetToJson).map decodeSnippet = l.map some := by
    intro l
    induction l with
    | nil => rfl
    | cons s rest ih =>
      rw [List.map_cons, List.map_cons, List.map_cons]
      rw [show decodeSnippet (snippetToJson s) = some s from rfl, ih]
  exact hall td.snippets

theorem rstrip_append_space (x : List Char) : rstrip (x ++ [' ']) = rstrip x := by
  unfold rstrip
  rw [List.reverse_append]
  simp [List.dropWhile_cons, show pySpace ' ' = true from by decide]

theorem pyStrip_append_space (x : List Char) : pyStrip (x ++ [' ']) = pyStrip x := by
  unfold pyStrip
  rw [rstrip_append_space]

theorem flatten_map_space : ∀ l : List (List Char), l ≠ [] →
    (l.map (fun t => t ++ [' '])).flatten = pyJoin [' '] l ++ [' '] := by
  intro l
  induction l with
  | nil => intro h; exact absurd rfl h
  | cons x rest ih =>
    intro _
    cases rest with
    | nil => simp [pyJoin]
    | cons y rest2 =>
      rw [List.map_cons, List.flatten_cons, ih (by simp)]
      rw [pyJoin_cons [' '] x (y :: rest2) (by simp)]
      simp

theorem pyStrip_flatten_join : ∀ texts : List (List Char),
    pyStrip ((texts.map (fun t => t ++ [' '])).flatten) = pyStrip (pyJoin [' '] texts) := by
  intro texts
  cases texts with
  | nil => rfl
  | cons x rest =>
    rw [flatten_map_space (x :: rest) (by simp), pyStrip_append_space]

theorem wsSplitAux_allspace : ∀ (t acc : List Char), (∀ c ∈ t, pySpace c = true) →
    wsSplitAux t acc = if acc = [] then [] else [acc.reverse] := by
  intro t
  induction t with
  | nil => intro acc _; rfl
  | cons c rest ih =>
    intro acc h
    have hc : pySpace c = true := h c (List.mem_cons_self c rest)
    have hrest : ∀ x ∈ rest, pySpace x = true := fun x hx => h x (List.mem_cons_of_mem c hx)
    by_cases ha : acc = []
    · simp [wsSplitAux, hc, ha, ih [] hrest]
    · simp [wsSplitAux, hc, ha, ih [] hrest]

theorem wsSplitAux_append_space : ∀ (s t acc : List Char), (∀ c ∈ t, pySpace c = true) →
    wsSplitAux (s ++ t) acc = wsSplitAux s acc := by
  intro s
  induction s with
  | nil =>
    intro t acc h
    rw [List.nil_append, wsSplitAux_allspace t acc h]
    rfl
  | cons c s2 ih =>
    intro t acc h
    rw [List.cons_append]
    by_cases hc : pySpace c = true
    · by_cases ha : acc = []
      · simp [wsSplitAux, hc, ha, ih t [] h]
      · simp [wsSplitAux, hc, ha, ih t [] h]
    · simp [wsSplitAux, hc, ih t (c :: acc) h]

theorem rstrip_decomp (s : List Char) :
    s = rstrip s ++ (s.reverse.takeWhile pySpace).reverse
    ∧ ∀ c ∈ (s.reverse.takeWhile pySpace).reverse, pySpace c = true := by
  constructor
  · conv_lhs =>
      rw [← List.reverse_reverse s, ← List.takeWhile_append_dropWhile pySpace s.reverse,
        List.reverse_append]
    rfl
  · intro c hc
    rw [List.mem_reverse] at hc
    exact List.mem_takeWhile_imp hc

theorem pyWsSplit_rstrip (s : List Char) : pyWsSplit (rstrip s) = pyWsSplit s := by
  obtain ⟨hdecomp, hsp⟩ := rstrip_decomp s
  unfold pyWsSplit
  conv_rhs => rw [hdecomp]
  rw [wsSplitAux_append_space _ _ _ hsp]

theorem pyWsSplit_lstrip (s : List Char) : pyWsSplit (lstrip s) = pyWsSplit s := by
  unfold pyWsSplit lstrip
  induction s with
  | nil => rfl
  | cons c rest ih =>
    by_cases hc : pySpace c = true
    · rw [List.dropWhile_cons]
      rw [show wsSplitAux (c :: rest) [] = wsSplitAux rest [] from by simp [wsSplitAux, hc]]
      simp [hc]
      exact ih
    · simp [List.dropWhile_cons, hc]

theorem pyWsSplit_strip (s : List Char) : pyWsSplit (pyStrip s) = pyWsSplit s := by
  unfold pyStrip
  rw [pyWsSplit_lstrip, pyWsSplit_rstrip]

theorem le_foldl_max (xs : List ℚ) : ∀ a : ℚ, a ≤ xs.foldl max a := by
  induction xs with
  | nil => intro a; simp
  | cons x xs ih =>
    intro a
    rw [List.foldl_cons]
    exact le_trans (le_max_left a x) (ih (max a x))

theorem mem_le_foldl_max (xs : List ℚ) : ∀ (a y : ℚ), y ∈ xs → y ≤ xs.foldl max a := by
  induction xs with
  | nil => intro a y h; simp at h
  | cons x xs ih =>
    intro a y h
    rw [List.foldl_cons]
    rcases List.mem_cons.mp h with h | h
    · rw [h]; exact le_trans (le_max_right a x) (le_foldl_max xs (max a x))
    · exact ih (max a x) y h

theorem foldl_max_mem (xs : List ℚ) : ∀ a : ℚ, xs.foldl max a = a ∨ xs.foldl max a ∈ xs := by
  induction xs with
  | nil => intro a; left; rfl
  | cons x xs ih =>
    intro a
    rw [List.foldl_cons]
    rcases ih (max a x) with h | h
    · rcases max_choice a x with hm | hm
      · left; rw [h, hm]
      · right; rw [h, hm]; exact List.mem_cons_self x xs
    · right; exact List.mem_cons_of_mem x h

theorem pyMax_mem (l : List ℚ) (hl : l ≠ []) : pyMax l ∈ l := by
  cases l with
  | nil => exact absurd rfl hl
  | cons x xs =>
    rw [pyMax]
    rcases foldl_max_mem xs x with h | h
    · rw [h]; exact List.mem_cons_self x xs
    · exact List.mem_cons_of_mem x h

theorem le_pyMax (l : List ℚ) (y : ℚ) (hy : y ∈ l) : y ≤ pyMax l := by
  cases l with
  | nil => simp at hy
  | cons x xs =>
    rw [pyMax]
    rcases List.mem_cons.mp hy with h | h
    · rw [h]; exact le_foldl_max xs x
    · exact mem_le_foldl_max xs x y h

/-- C4: the payload produced by `fetch_transcript`: `full_text` is the
snippets' texts joined with single spaces and stripped; `word_count` is the
whitespace-token count of `full_text`; `duration_seconds` is `0` for an
empty snippet sequence and otherwise the maximum of `start + duration` over
the snippets (it is attained by some snippet and bounds them all). -/
theorem fetch_transcript_payload (ft : FetchedTranscript) :
    (fetchTranscriptConvert ft).full_text
        = pyStrip (pyJoin (" ".toList)
            ((fetchTranscriptConvert ft).snippets.map TranscriptSnippet.text))
    ∧ (fetchTranscriptConvert ft).word_count
        = (pyWsSplit (fetchTranscriptConvert ft).full_text).length
    ∧ ((fetchTranscriptConvert ft).snippets = [] →
        (fetchTranscriptConvert ft).duration_seconds = 0)
    ∧ ((fetchTranscriptConvert ft).snippets ≠ [] →
        (fetchTranscriptConvert ft).duration_seconds
            ∈ ((fetchTranscriptConvert ft).snippets.map (fun s => s.start + s.duration))
        ∧ ∀ s ∈ (fetchTranscriptConvert ft).snippets,
            s.start + s.duration ≤ (fetchTranscriptConvert ft).duration_seconds) := by
  have hsnip : (fetchTranscriptConvert ft).snippets
      = ft.entries.map (fun e => TranscriptSnippet.mk e.text e.start e.duration) := rfl
  have hfull : (fetchTranscriptConvert ft).full_text
      = pyStrip ((ft.entries.map (fun e => e.text ++ [' '])).flatten) := rfl
  have hwc : (fetchTranscriptConvert ft).word_count
      = (pyWsSplit ((ft.entries.map (fun e => e.text ++ [' '])).flatten)).length := rfl
  have hdur : (fetchTranscriptConvert ft).duration_seconds
      = (if (fetchTranscriptConvert ft).snippets ≠ [] then
          pyMax ((fetchTranscriptConvert ft).snippets.map (fun s => s.start + s.duration))
        else 0) := rfl
  refine ⟨?_, ?_, ?_, ?_⟩
  · rw [hfull, hsnip, List.map_map]
    have h1 : (List.map (fun e : TranscriptSnippet => e.text ++ [' ']) ft.entries)
        = List.map (fun t => t ++ [' ']) (List.map (fun e : TranscriptSnippet => e.text) ft.entries) := by
      rw [List.map_map]
      rfl
    have h2 : (List.map (TranscriptSnippet.text ∘ fun e : TranscriptSnippet =>
        TranscriptSnippet.mk e.text e.start e.duration) ft.entries)
        = List.map (fun e : TranscriptSnippet => e.text) ft.entries := rfl
    rw [h2, h1, show (" ".toList : List Char) = [' '] from rfl]
    exact pyStrip_flatten_join (List.map (fun e : TranscriptSnippet => e.text) ft.entries)
  · rw [hwc, hfull, pyWsSplit_strip]
  · intro h
    rw [hdur, if_neg (by simp [h])]
  · intro h
    rw [hdur, if_pos h]
    constructor
    · exact pyMax_mem _ (by simpa using h)
    · intro s hs
      exact le_pyMax _ _ (List.mem_map_of_mem _ hs)

theorem validId_not_mem {id : List Char} (h : ∀ c ∈ id, idChar c) {c : Char}
    (hc : ¬ idChar c) : c ∉ id :=
  fun hmem => hc (h c hmem)

theorem strip_q {id post : List Char} (hq : '?' ∉ id)
    (hpost : post = [] ∨ ∃ t, post = '?' :: t) :
    beforeFirst ("?".toList) (id ++ post) = id := by
  rw [show ("?".toList : List Char) = ['?'] from rfl]
  rcases hpost with h | ⟨t, ht⟩
  · rw [h, List.append_nil]
    exact beforeFirst_of_not_contains _ _ (containsSub_false_of_not_mem (by simp) hq)
  · rw [ht, beforeFirst_single_append hq, beforeFirst_single_cons_self, List.append_nil]

theorem strip_amp {id post : List Char} (ha : '&' ∉ id)
    (hpost : post = [] ∨ ∃ t, post = '&' :: t) :
    beforeFirst ("&".toList) (id ++ post) = id := by
  rw [show ("&".toList : List Char) = ['&'] from rfl]
  rcases hpost with h | ⟨t, ht⟩
  · rw [h, List.append_nil]
    exact beforeFirst_of_not_contains _ _ (containsSub_false_of_not_mem (by simp) ha)
  · rw [ht, beforeFirst_single_append ha, beforeFirst_single_cons_self, List.append_nil]

theorem strip_short {id post : List Char} (hq : '?' ∉ id) (ha : '&' ∉ id)
    (hpost : post = [] ∨ (∃ t, post = '?' :: t) ∨ (∃ t, post = '&' :: t)) :
    beforeFirst ("&".toList) (beforeFirst ("?".toList) (id ++ post)) = id := by
  rcases hpost with h | h | ⟨t, ht⟩
  · rw [strip_q hq (Or.inl h)]
    have := strip_amp ha (Or.inl rfl)
    rwa [List.append_nil] at this
  · rw [strip_q hq (Or.inr h)]
    have := strip_amp ha (Or.inl rfl)
    rwa [List.append_nil] at this
  · rw [show ("?".toList : List Char) = ['?'] from rfl,
      show ("&".toList : List Char) = ['&'] from rfl]
    rw [ht, beforeFirst_single_append hq, beforeFirst_single_cons_ne (by decide) t]
    rw [beforeFirst_single_append ha, beforeFirst_single_cons_self, List.append_nil]

theorem candidate_short {url r : List Char} (h : afterFirst shortMarker url = some r) :
    candidateVideoId url
      = some (beforeFirst ("&".toList) (beforeFirst ("?".toList) (beforeFirst shortMarker r))) := by
  have hc : containsSub shortMarker url = true := afterFirst_isSome_contains _ _ _ h
  have h1 : pyIdx (pySplit shortMarker url) 1 = beforeFirst shortMarker r :=
    pySplit_getD_one (by decide) h
  have h2 : pyIdx (pySplit ("?".toList) (beforeFirst shortMarker r)) 0
      = beforeFirst ("?".toList) (beforeFirst shortMarker r) := pySplit_getD_zero _ _
  have h3 : pyIdx (pySplit ("&".toList) (beforeFirst ("?".toList) (beforeFirst shortMarker r))) 0
      = beforeFirst ("&".toList) (beforeFirst ("?".toList) (beforeFirst shortMarker r)) :=
    pySplit_getD_zero _ _
  rw [candidateVideoId, if_pos hc, h1, h2, h3]

theorem candidate_watch {url r : List Char} (hns : containsSub shortMarker url = false)
    (hw : containsSub watchMarker url = true) (h : afterFirst vMarker url = some r) :
    candidateVideoId url = some (beforeFirst ("&".toList) (beforeFirst vMarker r)) := by
  have h1 : pyIdx (pySplit vMarker url) 1 = beforeFirst vMarker r :=
    pySplit_getD_one (by decide) h
  have h2 : pyIdx (pySplit ("&".toList) (beforeFirst vMarker r)) 0
      = beforeFirst ("&".toList) (beforeFirst vMarker r) := pySplit_getD_zero _ _
  rw [candidateVideoId, if_neg (by rw [hns]; simp), if_pos hw, h1, h2]

theorem candidate_embed {url r : List Char} (hns : containsSub shortMarker url = false)
    (hnw : containsSub watchMarker url = false) (h : afterFirst embedMarker url = some r) :
    candidateVideoId url = some (beforeFirst ("?".toList) (beforeFirst embedMarker r)) := by
  have he : containsSub embedMarker url = true := afterFirst_isSome_contains _ _ _ h
  have h1 : pyIdx (pySplit embedMarker url) 1 = beforeFirst embedMarker r :=
    pySplit_getD_one (by decide) h
  have h2 : pyIdx (pySplit ("?".toList) (beforeFirst embedMarker r)) 0
      = beforeFirst ("?".toList) (beforeFirst embedMarker r) := pySplit_getD_zero _ _
  rw [candidateVideoId, if_neg (by rw [hns]; simp), if_neg (by rw [hnw]; simp),
    if_pos he, h1, h2]

theorem validate_of_short {url r : List Char} (h : afterFirst shortMarker url = some r) :
    validateYoutubeUrl url = true := by
  have hd := afterFirst_decomp shortMarker url r h
  have hcl : containsSub ("youtu.be".toList) (lowerL url) = true := by
    rw [hd]
    unfold lowerL
    rw [List.map_append, List.map_append]
    rw [show List.map Char.toLower shortMarker = "youtu.be".toList ++ ['/'] from by decide]
    rw [List.append_assoc, List.append_assoc]
    exact containsSub_append _ (by decide) _ _
  rw [validateYoutubeUrl, List.any_eq_true]
  exact ⟨"youtu.be".toList, by decide, hcl⟩

theorem extract_of_candidate {url id : List Char} (hv : validateYoutubeUrl url = true)
    (hc : candidateVideoId url = some id) (hlen : id.length = 11) :
    extractVideoId url = Except.ok id := by
  have hnotfalse : ¬ validateYoutubeUrl url = false := by rw [hv]; simp
  have hne : ¬ (id = [] ∨ id.length ≠ 11) := by
    rintro (h | h)
    · rw [h] at hlen
      exact absurd hlen (by decide)
    · exact h hlen
  rw [extractVideoId, if_neg hnotfalse, hc]
  show (if id = [] ∨ id.length ≠ 11 then Except.error ExtractErr.invalidVideoId
      else Except.ok id) = Except.ok id
  rw [if_neg hne]

/-- C2 (amended): for URLs of the three recognized shapes — marker occurring
once, an 11-character identifier over the id alphabet, followed by nothing or
by the delimiter the code strips for that shape — the extractor returns that
identifier; when no recognized domain string occurs case-insensitively
anywhere in the URL (the code tests substring occurrence, not the host) the
extractor fails with the invalid-URL error; and whenever the computed
candidate segment's length differs from 11 the extractor fails. -/
theorem extract_video_id_contract (url id : List Char) :
    (validId id →
      ((ShortShape url id → extractVideoId url = Except.ok id)
        ∧ (WatchShape url id → extractVideoId url = Except.ok id)
        ∧ (EmbedShape url id → extractVideoId url = Except.ok id)))
    ∧ (validateYoutubeUrl url = false → extractVideoId url = Except.error ExtractErr.invalidUrl)
    ∧ (∀ v, candidateVideoId url = some v → v.length ≠ 11 →
        ∃ e, extractVideoId url = Except.error e) := by
  refine ⟨fun hid => ⟨?_, ?_, ?_⟩, ?_, ?_⟩
  · rintro ⟨post, haf, hnc, hpost⟩
    have hq : '?' ∉ id := validId_not_mem hid.2 (by decide)
    have ha : '&' ∉ id := validId_not_mem hid.2 (by decide)
    have hcand := candidate_short haf
    rw [beforeFirst_of_not_contains shortMarker (id ++ post) hnc] at hcand
    rw [strip_short hq ha hpost] at hcand
    exact extract_of_candidate (validate_of_short haf) hcand hid.1
  · rintro ⟨hv, hns, hw, post, haf, hnc, hpost⟩
    have ha : '&' ∉ id := validId_not_mem hid.2 (by decide)
    have hcand := candidate_watch hns hw haf
    rw [beforeFirst_of_not_contains vMarker (id ++ post) hnc] at hcand
    rw [strip_amp ha hpost] at hcand
    exact extract_of_candidate hv hcand hid.1
  · rintro ⟨hv, hns, hnw, post, haf, hnc, hpost⟩
    have hq : '?' ∉ id := validId_not_mem hid.2 (by decide)
    have hcand := candidate_embed hns hnw haf
    rw [beforeFirst_of_not_contains embedMarker (id ++ post) hnc] at hcand
    rw [strip_q hq hpost] at hcand
    exact extract_of_candidate hv hcand hid.1
  · intro hv
    rw [extractVideoId, if_pos hv]
  · intro v hcand hlen
    by_cases hv : validateYoutubeUrl url = false
    · exact ⟨ExtractErr.invalidUrl, by rw [extractVideoId, if_pos hv]⟩
    · refine ⟨ExtractErr.invalidVideoId, ?_⟩
      rw [extractVideoId, if_neg hv, hcand]
      show (if v = [] ∨ v.length ≠ 11 then Except.error ExtractErr.invalidVideoId
          else Except.ok v) = Except.error ExtractErr.invalidVideoId
      rw [if_pos (Or.inr hlen)]

/-- Witness for C2 (amended): a short link is extracted, a URL with no
recognized domain substring is rejected, and a too-short candidate fails. -/
theorem extract_video_id_contract_witness :
    extractVideoId ("https://youtu.be/dQw4w9WgXcQ".toList) = Except.ok ("dQw4w9WgXcQ".toList)
    ∧ extractVideoId ("https://example.com/watch?v=dQw4w9WgXcQ".toList)
        = Except.error ExtractErr.invalidUrl
    ∧ ∃ e, extractVideoId ("https://youtu.be/tooshort".toList) = Except.error e := by
  refine ⟨?_, ?_, ?_⟩
  · exact ((extract_video_id_contract ("https://youtu.be/dQw4w9WgXcQ".toList)
        ("dQw4w9WgXcQ".toList)).1 (by decide)).1 ⟨[], by decide, by decide, Or.inl rfl⟩
  · exact (extract_video_id_contract ("https://example.com/watch?v=dQw4w9WgXcQ".toList)
        []).2.1 (by decide)
  · exact (extract_video_id_contract ("https://youtu.be/tooshort".toList) []).2.2
      ("tooshort".toList) (by decide) (by decide)

/-- Counterexample to C2 as stated: the code checks for a recognized domain
substring anywhere in the URL, not the URL's host; for this URL the host is
`evil.example` — not a recognized video-platform domain — and yet the
extractor succeeds instead of failing with InvalidURL. -/
theorem extract_video_id_host_counterexample :
    claimUrlHost ("https://evil.example/watch?v=abcdefghijk&youtube.com".toList)
        = "evil.example".toList
    ∧ ("evil.example".toList ∉ youtubeDomains)
    ∧ extractVideoId ("https://evil.example/watch?v=abcdefghijk&youtube.com".toList)
        = Except.ok ("abcdefghijk".toList) := by
  refine ⟨by decide, by decide, rfl⟩

/-- C8 (amended): the candidate identifier is the segment between the first
and second occurrence of the split token (`youtu.be/` for short links, `v=`
— not the full `watch?v=` marker — for watch URLs, `embed/` for embeds),
stripped at the first `?` and then `&` for short links, at the first `&`
only for watch URLs, and at the first `?` only for embed URLs. -/
theorem candidate_video_id_segments (url : List Char) :
    (∀ r, afterFirst shortMarker url = some r →
      candidateVideoId url
        = some (beforeFirst ("&".toList) (beforeFirst ("?".toList) (beforeFirst shortMarker r))))
    ∧ (containsSub shortMarker url = false → containsSub watchMarker url = true →
        ∀ r, afterFirst vMarker url = some r →
          candidateVideoId url = some (beforeFirst ("&".toList) (beforeFirst vMarker r)))
    ∧ (containsSub shortMarker url = false → containsSub watchMarker url = false →
        ∀ r, afterFirst embedMarker url = some r →
          candidateVideoId url = some (beforeFirst ("?".toList) (beforeFirst embedMarker r))) :=
  ⟨fun _ h => candidate_short h,
   fun hns hw _ h => candidate_watch hns hw h,
   fun hns hnw _ h => candidate_embed hns hnw h⟩

/-- Witness for C8 (amended) on all three shapes. -/
theorem candidate_video_id_segments_witness :
    candidateVideoId ("https://youtu.be/abc".toList) = some ("abc".toList)
    ∧ candidateVideoId ("https://www.youtube.com/watch?v=abc&x=1".toList) = some ("abc".toList)
    ∧ candidateVideoId ("https://www.youtube.com/embed/abc?x=1".toList) = some ("abc".toList) := by
  refine ⟨?_, ?_, ?_⟩
  · exact ((candidate_video_id_segments ("https://youtu.be/abc".toList)).1
      ("abc".toList) (by decide)).trans (by decide)
  · exact ((candidate_video_id_segments ("https://www.youtube.com/watch?v=abc&x=1".toList)).2.1
      (by decide) (by decide) ("abc&x=1".toList) (by decide)).trans (by decide)
  · exact ((candidate_video_id_segments ("https://www.youtube.com/embed/abc?x=1".toList)).2.2
      (by decide) (by decide) ("abc?x=1".toList) (by decide)).trans (by decide)

/-- Counterexample to C8 as stated: for an embed URL with an `&`-delimited
suffix the claim's extraction (strip at the first `?` or `&`) yields the
11-character identifier, but the code only strips `?` on the embed branch,
so its candidate keeps the suffix and the extractor rejects the URL. -/
theorem candidate_video_id_counterexample :
    claimExtractedId ("https://www.youtube.com/embed/abcdefghijk&t=1".toList)
        = some ("abcdefghijk".toList)
    ∧ candidateVideoId ("https://www.youtube.com/embed/abcdefghijk&t=1".toList)
        = some ("abcdefghijk&t=1".toList)
    ∧ extractVideoId ("https://www.youtube.com/embed/abcdefghijk&t=1".toList)
        = Except.error ExtractErr.invalidVideoId := by
  refine ⟨by decide, by decide, rfl⟩

/-- C3: when any write raises mid-export, every file already written for the
call is removed again before the error propagates, so a failed export leaves
the output directory as it was (the timestamped filename is fresh). -/
theorem save_transcript_cleanup (w : WriteOutcome) (fsize : List Char → ℕ)
    (outDir : List Char) (disk0 : List (List Char)) (td : TranscriptData)
    (fmt : FileFormat) (custom : Option (List Char)) (timestamp : List Char)
    (hfresh : txtFilePath outDir (saveBaseFilename td custom timestamp) ∉ disk0) :
    ∀ e, (saveTranscript w fsize outDir disk0 td fmt custom timestamp).2 = Except.error e →
      (saveTranscript w fsize outDir disk0 td fmt custom timestamp).1 = disk0 := by
  intro e herr
  have hbase : (disk0 ++ [txtFilePath outDir (saveBaseFilename td custom timestamp)]).erase
      (txtFilePath outDir (saveBaseFilename td custom timestamp)) = disk0 := by
    rw [List.erase_append_right _ hfresh, List.erase_cons_head, List.append_nil]
  cases fmt <;> cases htx : w.txtOk <;> cases hpd : w.pdfOk <;> cases hjs : w.jsonOk <;>
    simp_all [saveTranscript, cleanupFiles, txtOutput]

/-- Witness for C3: a `both` export whose pdf write fails ends with the
original (empty) output directory. -/
theorem save_transcript_cleanup_witness :
    (saveTranscript (WriteOutcome.mk true false true) (fun _ => 0) ("out".toList) [] sampleTD
        FileFormat.both none ("ts".toList)).2 = Except.error ("pdf export failed".toList)
    ∧ (saveTranscript (WriteOutcome.mk true false true) (fun _ => 0) ("out".toList) [] sampleTD
        FileFormat.both none ("ts".toList)).1 = [] := by
  refine ⟨rfl, ?_⟩
  exact save_transcript_cleanup (WriteOutcome.mk true false true) (fun _ => 0) ("out".toList)
    [] sampleTD FileFormat.both none ("ts".toList) (by decide)
    ("pdf export failed".toList) rfl

theorem saveTranscript_error_ne_nil (w : WriteOutcome) (fsize : List Char → ℕ)
    (outDir : List Char) (disk0 : List (List Char)) (td : TranscriptData)
    (fmt : FileFormat) (custom : Option (List Char)) (timestamp : List Char) :
    ∀ e, (saveTranscript w fsize outDir disk0 td fmt custom timestamp).2 = Except.error e →
      e ≠ [] := by
  intro e h
  cases fmt <;> cases htx : w.txtOk <;> cases hpd : w.pdfOk <;> cases hjs : w.jsonOk <;>
    simp_all [saveTranscript] <;> (rw [← h]; decide)

theorem saveTranscript_ok_length (w : WriteOutcome) (fsize : List Char → ℕ)
    (outDir : List Char) (disk0 : List (List Char)) (td : TranscriptData)
    (fmt : FileFormat) (custom : Option (List Char)) (timestamp : List Char) :
    ∀ files, (saveTranscript w fsize outDir disk0 td fmt custom timestamp).2 = Except.ok files →
      files.length = expectedFileCount fmt := by
  intro files h
  cases fmt <;> cases htx : w.txtOk <;> cases hpd : w.pdfOk <;> cases hjs : w.jsonOk <;>
    simp_all [saveTranscript, expectedFileCount] <;> (rw [← h]; rfl)

/-- C1: `process_transcript` on an existing (still pending, no files) task
never lets an exception escape: it returns a record whose status is
`completed` or `failed`; a failed record carries a non-empty error message
and an empty files list, and a completed record carries exactly 1 file for
txt/pdf/json and exactly 2 for `both`. -/
theorem process_transcript_contract (w : WriteOutcome) (fsize : List Char → ℕ)
    (outDir : List Char) (disk : List (List Char))
    (tasks : List (List Char × TranscriptResponse)) (task_id : List Char)
    (fmt : FileFormat) (custom : Option (List Char))
    (fetched : Except (List Char) FetchedTranscript) (timestamp : List Char)
    (tStart tEnd : ℚ) (r : TranscriptResponse)
    (hex : lookupTask tasks task_id = some r) (hfiles : r.files = [])
    (herr : ∀ e, fetched = Except.error e → e ≠ []) :
    ∃ tasks2 disk2 resp,
      processTranscript w fsize outDir disk tasks task_id fmt custom fetched timestamp tStart tEnd
        = Except.ok (tasks2, disk2, resp)
      ∧ (resp.status = TranscriptStatus.completed ∨ resp.status = TranscriptStatus.failed)
      ∧ (resp.status = TranscriptStatus.failed →
          resp.files = [] ∧ ∃ m, resp.error_message = some m ∧ m ≠ [])
      ∧ (resp.status = TranscriptStatus.completed →
          resp.files.length = expectedFileCount fmt) := by
  cases fetched with
  | error e =>
    have he : e ≠ [] := herr e rfl
    simp only [processTranscript, hex]
    refine ⟨_, _, _, rfl, Or.inr rfl, fun _ => ⟨hfiles, e, rfl, he⟩, ?_⟩
    intro hcon
    simp at hcon
  | ok ft =>
    simp only [processTranscript, hex]
    rcases hsp : saveTranscript w fsize outDir disk
        { video_info := r.video_info
          snippets := (fetchTranscriptConvert ft).snippets
          full_text := (fetchTranscriptConvert ft).full_text
          language := (fetchTranscriptConvert ft).language
          is_generated := (fetchTranscriptConvert ft).is_generated
          word_count := (fetchTranscriptConvert ft).word_count
          duration_seconds := (fetchTranscriptConvert ft).duration_seconds }
        fmt custom timestamp with ⟨disk1, res⟩
    cases res with
    | error e =>
      have he : e ≠ [] := saveTranscript_error_ne_nil w fsize outDir disk _ fmt custom timestamp e
        (by rw [hsp])
      refine ⟨_, _, _, rfl, Or.inr rfl, fun _ => ⟨hfiles, e, rfl, he⟩, ?_⟩
      intro hcon
      simp at hcon
    | ok files =>
      have hlen := saveTranscript_ok_length w fsize outDir disk _ fmt custom timestamp files
        (by rw [hsp])
      refine ⟨_, _, _, rfl, Or.inl rfl, ?_, fun _ => hlen⟩
      intro hcon
      simp at hcon

/-- Witness for C1: a pending task whose fetch fails yields a failed record
with the fetch error captured; all hypotheses discharged concretely. -/
theorem process_transcript_contract_witness :
    ∃ tasks2 disk2 resp,
      processTranscript (WriteOutcome.mk true true true) (fun _ => 0) ("out".toList) []
          [(("t1".toList), sampleResponse)] ("t1".toList) FileFormat.both none
          (Except.error ("boom".toList)) ("ts".toList) 0 1
        = Except.ok (tasks2, disk2, resp)
      ∧ (resp.status = TranscriptStatus.completed ∨ resp.status = TranscriptStatus.failed)
      ∧ (resp.status = TranscriptStatus.failed →
          resp.files = [] ∧ ∃ m, resp.error_message = some m ∧ m ≠ [])
      ∧ (resp.status = TranscriptStatus.completed →
          resp.files.length = expectedFileCount FileFormat.both) :=
  process_transcript_contract (WriteOutcome.mk true true true) (fun _ => 0) ("out".toList) []
    [(("t1".toList), sampleResponse)] ("t1".toList) FileFormat.both none
    (Except.error ("boom".toList)) ("ts".toList) 0 1 sampleResponse rfl rfl
    (fun e h => by
      injection h with h2
      rw [← h2]
      decide)

/-- Witness for C4 at a concrete two-snippet fetch and at an empty fetch. -/
theorem fetch_transcript_payload_witness :
    (fetchTranscriptConvert sampleFetch).snippets ≠ []
    ∧ (fetchTranscriptConvert sampleFetch).duration_seconds
        ∈ ((fetchTranscriptConvert sampleFetch).snippets.map (fun s => s.start + s.duration))
    ∧ (fetchTranscriptConvert (FetchedTranscript.mk [] ("en".toList) false)).duration_seconds
        = 0 := by
  refine ⟨by decide, ?_, ?_⟩
  · exact ((fetch_transcript_payload sampleFetch).2.2.2 (by decide)).1
  · exact (fetch_transcript_payload (FetchedTranscript.mk [] ("en".toList) false)).2.2.1 rfl

theorem lookupTask_filter_ne (tasks : List (List Char × TranscriptResponse))
    (task_id : List Char) :
    lookupTask (tasks.filter (fun p => ¬ (p.1 = task_id))) task_id = none := by
  unfold lookupTask
  have hfind : (tasks.filter (fun p => ¬ (p.1 = task_id))).find? (fun p => p.1 = task_id)
      = none := by
    rw [List.find?_eq_none]
    intro p hp
    have h2 := List.of_mem_filter hp
    simp at h2 ⊢
    exact h2
  rw [hfind]
  rfl

theorem not_mem_foldl_deleteFile_of_not_mem (files : List FileOutput) :
    ∀ (disk : List (List Char)) (x : List Char), x ∉ disk →
      x ∉ files.foldl (fun d f => (deleteFile d f.file_path).2) disk := by
  induction files with
  | nil => intro disk x h; exact h
  | cons g gs ih =>
    intro disk x h
    rw [List.foldl_cons]
    apply ih
    unfold deleteFile
    by_cases hg : g.file_path ∈ disk
    · rw [if_pos hg]
      intro hx
      exact h (List.mem_of_mem_erase hx)
    · rw [if_neg hg]
      exact h

theorem nodup_foldl_deleteFile (files : List FileOutput) :
    ∀ disk : List (List Char), disk.Nodup →
      (files.foldl (fun d f => (deleteFile d f.file_path).2) disk).Nodup := by
  induction files with
  | nil => intro disk h; exact h
  | cons g gs ih =>
    intro disk h
    rw [List.foldl_cons]
    apply ih
    unfold deleteFile
    by_cases hg : g.file_path ∈ disk
    · rw [if_pos hg]
      exact h.erase _
    · rw [if_neg hg]
      exact h

theorem mem_files_deleted (files : List FileOutput) :
    ∀ (disk : List (List Char)), disk.Nodup → ∀ f ∈ files,
      f.file_path ∉ files.foldl (fun d f => (deleteFile d f.file_path).2) disk := by
  induction files with
  | nil => intro disk _ f hf; simp at hf
  | cons g gs ih =>
    intro disk hnd f hf
    rw [List.foldl_cons]
    rcases List.mem_cons.mp hf with h | h
    · apply not_mem_foldl_deleteFile_of_not_mem
      rw [h]
      unfold deleteFile
      by_cases hg : g.file_path ∈ disk
      · rw [if_pos hg]
        intro hx
        exact (hnd.mem_erase_iff.mp hx).1 rfl
      · rw [if_neg hg]
        exact hg
    · apply ih
      · unfold deleteFile
        by_cases hg : g.file_path ∈ disk
        · rw [if_pos hg]
          exact hnd.erase _
        · rw [if_neg hg]
          exact hnd
      · exact h

/-- C5: `delete_task` returns false for an unknown id; for an existing task
it returns true, a subsequent lookup of the id is absent, and no path of a
previously associated file remains on the (duplicate-free) disk. -/
theorem delete_task_contract (disk : List (List Char))
    (tasks : List (List Char × TranscriptResponse)) (task_id : List Char)
    (hnd : disk.Nodup) :
    (lookupTask tasks task_id = none → (deleteTask disk tasks task_id).1 = false)
    ∧ ∀ r, lookupTask tasks task_id = some r →
        (deleteTask disk tasks task_id).1 = true
        ∧ lookupTask (deleteTask disk tasks task_id).2.1 task_id = none
        ∧ ∀ f ∈ r.files, f.file_path ∉ (deleteTask disk tasks task_id).2.2 := by
  refine ⟨?_, ?_⟩
  · intro h
    unfold deleteTask
    rw [h]
  · intro r h
    unfold deleteTask
    rw [h]
    exact ⟨rfl, lookupTask_filter_ne tasks task_id, mem_files_deleted r.files disk hnd⟩

/-- Witness for C5: deleting an existing one-file task removes both the
record and the file; deleting an unknown id reports false. -/
theorem delete_task_contract_witness :
    (deleteTask (["out/a.txt".toList])
        [(("t1".toList), { sampleResponse with files := [sampleFileOutput] })] ("t1".toList)).1
      = true
    ∧ lookupTask (deleteTask (["out/a.txt".toList])
        [(("t1".toList), { sampleResponse with files := [sampleFileOutput] })]
        ("t1".toList)).2.1 ("t1".toList) = none
    ∧ (∀ f ∈ ({ sampleResponse with files := [sampleFileOutput] } : TranscriptResponse).files,
        f.file_path ∉ (deleteTask (["out/a.txt".toList])
          [(("t1".toList), { sampleResponse with files := [sampleFileOutput] })]
          ("t1".toList)).2.2)
    ∧ (deleteTask (["out/a.txt".toList]) [] ("nope".toList)).1 = false := by
  have h := (delete_task_contract (["out/a.txt".toList])
      [(("t1".toList), { sampleResponse with files := [sampleFileOutput] })] ("t1".toList)
      (by decide)).2 { sampleResponse with files := [sampleFileOutput] } rfl
  have h0 := (delete_task_contract (["out/a.txt".toList]) [] ("nope".toList) (by decide)).1 rfl
  exact ⟨h.1, h.2.1, h.2.2, h0⟩

theorem reachableReq_length_le (rl : RateLimiter) :
    ∀ l, ReachableReq rl l → l.length ≤ rl.max_requests := by
  intro l h
  induction h with
  | init => simp
  | step prev now hprev ih =>
    simp only [isAllowed]
    split
    · exact le_trans (List.length_filter_le _ _) ih
    · next hc =>
      rw [List.length_append]
      simp only [List.length_singleton]
      omega

/-- C10: after a call to `is_allowed` on a reachable per-client state, every
stored timestamp is strictly inside the window, the stored count never
exceeds `max_requests`, and the call allowed the request exactly when fewer
than `max_requests` timestamps remained in the window beforehand. -/
theorem rate_limiter_invariant (rl : RateLimiter) (prev : List ℚ) (now : ℚ)
    (hreach : ReachableReq rl prev) (hw : 0 < rl.window_minutes) :
    (∀ t ∈ (isAllowed rl prev now).2, now - rl.window_minutes * 60 < t)
    ∧ (isAllowed rl prev now).2.length ≤ rl.max_requests
    ∧ ((isAllowed rl prev now).1 = true
        ↔ (prev.filter (fun t => now - rl.window_minutes * 60 < t)).length
            < rl.max_requests) := by
  have hw60 : 0 < rl.window_minutes * 60 := by positivity
  refine ⟨?_, ?_, ?_⟩
  · intro t ht
    simp only [isAllowed] at ht
    split at ht
    · exact of_decide_eq_true (List.mem_filter.mp ht).2
    · rcases List.mem_append.mp ht with h | h
      · exact of_decide_eq_true (List.mem_filter.mp h).2
      · have : t = now := by simpa using h
        rw [this]
        linarith
  · exact reachableReq_length_le rl _ (ReachableReq.step prev now hreach)
  · simp only [isAllowed]
    split
    · next hc =>
      simp only [Bool.false_eq_true, false_iff, not_lt]
      exact hc
    · next hc =>
      simp only [true_iff]
      omega

/-- Witness for C10 on the process-wide limiter configuration (50 requests
per 60 minutes) at the empty reachable state. -/
theorem rate_limiter_invariant_witness :
    (∀ t ∈ (isAllowed (RateLimiter.mk 50 60) [] 0).2,
      (0 : ℚ) - (RateLimiter.mk 50 60).window_minutes * 60 < t)
    ∧ (isAllowed (RateLimiter.mk 50 60) [] 0).2.length ≤ (RateLimiter.mk 50 60).max_requests
    ∧ ((isAllowed (RateLimiter.mk 50 60) [] 0).1 = true
        ↔ (([] : List ℚ).filter
            (fun t => (0 : ℚ) - (RateLimiter.mk 50 60).window_minutes * 60 < t)).length
            < (RateLimiter.mk 50 60).max_requests) :=
  rate_limiter_invariant (RateLimiter.mk 50 60) [] 0 ReachableReq.init (by norm_num)
